import Mathlib

/-!
Shallow embedding of the TiKV resource-governance / configuration-codec layer:
`components/engine_rocks/src/config.rs` (ConfigCodec) and
`components/tikv_util/src/sys/mod.rs` (QuotaProbe, MemoryPressureMonitor).

Serde deserializers are modelled as total Lean functions from the relevant
input shape (string, signed integer, or sequence of strings) into a result
type that distinguishes success, a recoverable serde error, and a Rust
process abort (a reached `panic` branch, which serde cannot recover from).
Rust `f64` values reaching the quota computation are modelled as rationals:
the quota logic only uses `min` and sign tests, which are exact on the
float values involved.  Rust `u64`/`i64` are modelled as `Nat`/`Int`, with
an explicit `% 2 ^ 64` where a Rust cast truncates.
-/

namespace Tikv

/-- A serde deserialization error, as produced by the `serde::de::Error`
constructors used in `config.rs` (`invalid_value` on a string, on a signed
integer, or on an `Unexpected::Other` description; `invalid_length`; and the
derived deserializer's `unknown_variant`). -/
inductive SerdeErr where
  | invalidValueStr (got : String) (expected : String)
  | invalidValueSigned (got : Int) (expected : String)
  | invalidValueOther (got : String) (expected : String)
  | invalidLength (got : Nat) (expected : String)
  | unknownVariant (got : String) (expected : List String)
  deriving DecidableEq

/-- Outcome of running one of the deserializers in `config.rs`: success, a
recoverable serde error returned to the caller, or a process abort from a
reached `panic` branch. -/
inductive DecodeResult (α : Type) where
  | ok (a : α)
  | err (e : SerdeErr)
  | aborted (msg : String)
  deriving DecidableEq

def DecodeResult.isOk : DecodeResult α → Bool
  | .ok _ => true
  | _ => false

def DecodeResult.isRecoverableErr : DecodeResult α → Bool
  | .err _ => true
  | _ => false

def DecodeResult.isAborted : DecodeResult α → Bool
  | .aborted _ => true
  | _ => false

def DecodeResult.isLengthErr : DecodeResult α → Bool
  | .err (.invalidLength _ _) => true
  | _ => false

def DecodeResult.isInvalidValueErr : DecodeResult α → Bool
  | .err (.invalidValueStr _ _) => true
  | .err (.invalidValueSigned _ _) => true
  | .err (.invalidValueOther _ _) => true
  | _ => false

/-- The scrutinee shape handed to `deserialize_any` by the configuration
parser for the `numeric_enum_mod` codecs: either an `i64` (dispatched to
`visit_i64`) or a string (dispatched to `visit_str`). -/
inductive SerdeInput where
  | signed (v : Int)
  | str (s : String)
  deriving DecidableEq

/-! ### Rust string normalization: `value.trim().to_lowercase()`

Strings are worked on as `List Char`.  `rustIsWhitespace` is Rust's
`char::is_whitespace` (the Unicode `White_Space` property).
`Char.toLower` agrees with Rust `to_lowercase` on ASCII, which covers
every string the codecs compare against. -/

def rustIsWhitespace (c : Char) : Bool :=
  let n := c.toNat
  (0x9 ≤ n && n ≤ 0xd) || n == 0x20 || n == 0x85 || n == 0xa0 || n == 0x1680 ||
    (0x2000 ≤ n && n ≤ 0x200a) || n == 0x2028 || n == 0x2029 || n == 0x202f ||
    n == 0x205f || n == 0x3000

/-- Rust `str::trim`: remove leading and trailing whitespace. -/
def rustTrim (s : List Char) : List Char :=
  ((s.dropWhile rustIsWhitespace).reverse.dropWhile rustIsWhitespace).reverse

/-- `value.trim().to_lowercase()`, the normalization applied by both
compression-type deserializers before matching. -/
def normalizeConfigStr (s : String) : String :=
  String.mk ((rustTrim s.data).map Char.toLower)

/-! ### DBCompressionType and the two compression codecs -/

inductive DBCompressionType where
  | no
  | snappy
  | zlib
  | bz2
  | lz4
  | lz4hc
  | zstd
  | zstdNotFinal
  | disable
  deriving DecidableEq

/-- The canonical textual name emitted by `compression_type_serde::serialize`
and `compression_type_level_serde::serialize`. -/
def compressionTypeName : DBCompressionType → String
  | .no => "no"
  | .snappy => "snappy"
  | .zlib => "zlib"
  | .bz2 => "bzip2"
  | .lz4 => "lz4"
  | .lz4hc => "lz4hc"
  | .zstd => "zstd"
  | .zstdNotFinal => "zstd-not-final"
  | .disable => "disable"

/-- The name-to-variant table shared by both compression deserializers
(the `match` on the trimmed lowercased input). -/
def compressionTypeOfName (s : String) : Option DBCompressionType :=
  if s = "no" then some .no
  else if s = "snappy" then some .snappy
  else if s = "zlib" then some .zlib
  else if s = "bzip2" then some .bz2
  else if s = "lz4" then some .lz4
  else if s = "lz4hc" then some .lz4hc
  else if s = "zstd" then some .zstd
  else if s = "zstd-not-final" then some .zstdNotFinal
  else if s = "disable" then some .disable
  else none

/-- The nine recognized canonical compression names. -/
def canonicalCompressionNames : List String :=
  ["no", "snappy", "zlib", "bzip2", "lz4", "lz4hc", "zstd", "zstd-not-final",
    "disable"]

/-- `compression_type_serde::serialize`. -/
def compression_type_serialize (t : DBCompressionType) : String :=
  compressionTypeName t

/-- `compression_type_serde::deserialize` (`visit_str` of `StrVistor`): match
the trimmed lowercased input; on failure, `invalid_value` with an
`Unexpected::Other` description. -/
def compression_type_deserialize (value : String) : DecodeResult DBCompressionType :=
  match compressionTypeOfName (normalizeConfigStr value) with
  | some t => .ok t
  | none => .err (.invalidValueOther "invalid compression type" "a compression type")

/-- `compression_type_level_serde::serialize`: emit the name of each entry.
(The Rust input is `[DBCompressionType; 7]`; the list model carries the
length as a side condition.) -/
def compression_type_level_serialize (ts : List DBCompressionType) : List String :=
  ts.map compressionTypeName

/-- The `visit_seq` loop of `compression_type_level_serde::deserialize`:
`i` counts elements already decoded, `acc` holds them in reverse.  An 8th
element is rejected with `invalid_value`; an unrecognized name with
`invalid_value`; exhausting the input with fewer than 7 elements with
`invalid_length`. -/
def ladderVisitSeq : List String → Nat → List DBCompressionType →
    DecodeResult (List DBCompressionType)
  | [], i, acc =>
    if i < 7 then .err (.invalidLength i "7 compression types") else .ok acc.reverse
  | value :: rest, i, acc =>
    if i = 7 then .err (.invalidValueStr value "only 7 compression types")
    else
      match compressionTypeOfName (normalizeConfigStr value) with
      | some t => ladderVisitSeq rest (i + 1) (t :: acc)
      | none => .err (.invalidValueStr value "invalid compression type")

/-- `compression_type_level_serde::deserialize`. -/
def compression_type_level_deserialize (xs : List String) :
    DecodeResult (List DBCompressionType) :=
  ladderVisitSeq xs 0 []

/-! ### BlobRunMode: derived serde codec, `FromStr`, and the `ConfigValue`
conversions -/

inductive BlobRunMode where
  | normal
  | readOnly
  | fallback
  deriving DecidableEq

/-- The kebab-case name emitted for a variant by the derived `Serialize`
(`#[serde(rename_all = "kebab-case")]`). -/
def blobRunModeSerdeName : BlobRunMode → String
  | .normal => "normal"
  | .readOnly => "read-only"
  | .fallback => "fallback"

/-- The derived `Deserialize` for `BlobRunMode` on a string input: an exact
match against the kebab-case variant names; anything else is the derive's
recoverable `unknown_variant` error. -/
def blobRunModeDeserialize (s : String) : DecodeResult BlobRunMode :=
  if s = "normal" then .ok .normal
  else if s = "read-only" then .ok .readOnly
  else if s = "fallback" then .ok .fallback
  else .err (.unknownVariant s ["normal", "read-only", "fallback"])

/-- `impl FromStr for BlobRunMode`. -/
def BlobRunMode.from_str (s : String) : Except String BlobRunMode :=
  if s = "normal" then .ok .normal
  else if s = "read-only" then .ok .readOnly
  else if s = "fallback" then .ok .fallback
  else .error ("expect: normal, read-only or fallback, got: " ++ s)

/-- The Rust `Debug` rendering of a `BlobRunMode` variant, as produced by
`format!` with the debug specifier in the `ConfigValue` conversion. -/
def BlobRunMode.debugName : BlobRunMode → String
  | .normal => "Normal"
  | .readOnly => "ReadOnly"
  | .fallback => "Fallback"

/-- `online_config::ConfigValue`, modelled with the one variant the
conversions in `config.rs` inspect plus a stand-in for every other variant
(the conversion only distinguishes `BlobRunMode(_)` from the rest). -/
inductive ConfigValue where
  | blobRunMode (s : String)
  | otherVariant (description : String)
  deriving DecidableEq

/-- `impl From for ConfigValue`: the variant name prefixed with `k`. -/
def configValueOfBlobRunMode (m : BlobRunMode) : ConfigValue :=
  .blobRunMode ("k" ++ m.debugName)

/-- `impl From for BlobRunMode` (out of `ConfigValue`): matches the three
prefixed names and panics on any other string or any other
`ConfigValue` variant. -/
def blobRunModeOfConfigValue : ConfigValue → DecodeResult BlobRunMode
  | .blobRunMode s =>
    if s = "kNormal" then .ok .normal
    else if s = "kReadOnly" then .ok .readOnly
    else if s = "kFallback" then .ok .fallback
    else .aborted ("expect: kNormal, kReadOnly or kFallback, got: " ++ s)
  | .otherVariant d => .aborted ("expect: ConfigValue::BlobRunMode, got: " ++ d)

/-! ### The `numeric_enum_mod` codecs

Each generated module serializes the variant as its `i64` ordinal and
deserializes with `deserialize_any`: an `i64` input is matched against the
ordinal table (out of range is a recoverable `invalid_value`); a string
input is handed to the enum's `FromString::from_string`, which panics on
anything outside its accepted variant-name set. -/

inductive CompactionPriority where
  | byCompensatedSize
  | oldestLargestSeqFirst
  | oldestSmallestSeqFirst
  | minOverlappingRatio
  deriving DecidableEq

/-- `numeric_enum_mod` ordinal table for `CompactionPriority` (pinned by the
in-file serde round-trip tests). -/
def CompactionPriority.asI64 : CompactionPriority → Int
  | .byCompensatedSize => 0
  | .oldestLargestSeqFirst => 1
  | .oldestSmallestSeqFirst => 2
  | .minOverlappingRatio => 3

/-- `impl FromString for CompactionPriority`: exact variant names, panics
otherwise. -/
def CompactionPriority.from_string (name : String) : DecodeResult CompactionPriority :=
  if name = "ByCompensatedSize" then .ok .byCompensatedSize
  else if name = "OldestLargestSeqFirst" then .ok .oldestLargestSeqFirst
  else if name = "OldestSmallestSeqFirst" then .ok .oldestSmallestSeqFirst
  else if name = "MinOverlappingRatio" then .ok .minOverlappingRatio
  else .aborted ("expect: ByCompensatedSize, OldestLargestSeqFirst, OldestSmallestSeqFirst, MinOverlappingRatio got: " ++ name)

def compaction_pri_serialize (m : CompactionPriority) : Int :=
  m.asI64

def compaction_pri_deserialize : SerdeInput → DecodeResult CompactionPriority
  | .signed v =>
    if v = 0 then .ok .byCompensatedSize
    else if v = 1 then .ok .oldestLargestSeqFirst
    else if v = 2 then .ok .oldestSmallestSeqFirst
    else if v = 3 then .ok .minOverlappingRatio
    else .err (.invalidValueSigned v "valid CompactionPriority")
  | .str s => CompactionPriority.from_string s

inductive DBRateLimiterMode where
  | readOnly
  | writeOnly
  | allIo
  deriving DecidableEq

def DBRateLimiterMode.asI64 : DBRateLimiterMode → Int
  | .readOnly => 1
  | .writeOnly => 2
  | .allIo => 3

/-- `impl FromString for DBRateLimiterMode`. -/
def DBRateLimiterMode.from_string (name : String) : DecodeResult DBRateLimiterMode :=
  if name = "ReadOnly" then .ok .readOnly
  else if name = "WriteOnly" then .ok .writeOnly
  else if name = "AllIo" then .ok .allIo
  else .aborted ("expect: ReadOnly, WriteOnly, AllIo got: " ++ name)

def rate_limiter_mode_serialize (m : DBRateLimiterMode) : Int :=
  m.asI64

def rate_limiter_mode_deserialize : SerdeInput → DecodeResult DBRateLimiterMode
  | .signed v =>
    if v = 1 then .ok .readOnly
    else if v = 2 then .ok .writeOnly
    else if v = 3 then .ok .allIo
    else .err (.invalidValueSigned v "valid DBRateLimiterMode")
  | .str s => DBRateLimiterMode.from_string s

inductive DBCompactionStyle where
  | level
  | universal
  deriving DecidableEq

def DBCompactionStyle.asI64 : DBCompactionStyle → Int
  | .level => 0
  | .universal => 1

/-- `impl FromString for DBCompactionStyle`: lowercase style names. -/
def DBCompactionStyle.from_string (name : String) : DecodeResult DBCompactionStyle :=
  if name = "level" then .ok .level
  else if name = "universal" then .ok .universal
  else .aborted ("expect: level, universal got: " ++ name)

def compaction_style_serialize (m : DBCompactionStyle) : Int :=
  m.asI64

def compaction_style_deserialize : SerdeInput → DecodeResult DBCompactionStyle
  | .signed v =>
    if v = 0 then .ok .level
    else if v = 1 then .ok .universal
    else .err (.invalidValueSigned v "valid DBCompactionStyle")
  | .str s => DBCompactionStyle.from_string s

inductive DBRecoveryMode where
  | tolerateCorruptedTailRecords
  | absoluteConsistency
  | pointInTime
  | skipAnyCorruptedRecords
  deriving DecidableEq

def DBRecoveryMode.asI64 : DBRecoveryMode → Int
  | .tolerateCorruptedTailRecords => 0
  | .absoluteConsistency => 1
  | .pointInTime => 2
  | .skipAnyCorruptedRecords => 3

/-- `impl FromString for DBRecoveryMode`. -/
def DBRecoveryMode.from_string (name : String) : DecodeResult DBRecoveryMode :=
  if name = "TolerateCorruptedTailRecords" then .ok .tolerateCorruptedTailRecords
  else if name = "AbsoluteConsistency" then .ok .absoluteConsistency
  else if name = "PointInTime" then .ok .pointInTime
  else if name = "SkipAnyCorruptedRecords" then .ok .skipAnyCorruptedRecords
  else .aborted ("expect: TolerateCorruptedTailRecords, AbsoluteConsistency, PointInTime, SkipAnyCorruptedRecords got: " ++ name)

def recovery_mode_serialize (m : DBRecoveryMode) : Int :=
  m.asI64

def recovery_mode_deserialize : SerdeInput → DecodeResult DBRecoveryMode
  | .signed v =>
    if v = 0 then .ok .tolerateCorruptedTailRecords
    else if v = 1 then .ok .absoluteConsistency
    else if v = 2 then .ok .pointInTime
    else if v = 3 then .ok .skipAnyCorruptedRecords
    else .err (.invalidValueSigned v "valid DBRecoveryMode")
  | .str s => DBRecoveryMode.from_string s

inductive PerfLevel where
  | uninitialized
  | disable
  | enableCount
  | enableTimeExceptForMutex
  | enableTimeAndCPUTimeExceptForMutex
  | enableTime
  | outOfBounds
  deriving DecidableEq

def PerfLevel.asI64 : PerfLevel → Int
  | .uninitialized => 0
  | .disable => 1
  | .enableCount => 2
  | .enableTimeExceptForMutex => 3
  | .enableTimeAndCPUTimeExceptForMutex => 4
  | .enableTime => 5
  | .outOfBounds => 6

/-- `impl FromString for PerfLevel`: the match has no accepting arm — every
string input panics with a use-the-index message. -/
def PerfLevel.from_string (name : String) : DecodeResult PerfLevel :=
  .aborted ("Do not support name: " ++ name ++ ", use index instead(0, 1, 2)...")

def perf_level_serialize (m : PerfLevel) : Int :=
  m.asI64

def perf_level_deserialize : SerdeInput → DecodeResult PerfLevel
  | .signed v =>
    if v = 0 then .ok .uninitialized
    else if v = 1 then .ok .disable
    else if v = 2 then .ok .enableCount
    else if v = 3 then .ok .enableTimeExceptForMutex
    else if v = 4 then .ok .enableTimeAndCPUTimeExceptForMutex
    else if v = 5 then .ok .enableTime
    else if v = 6 then .ok .outOfBounds
    else .err (.invalidValueSigned v "valid PerfLevel")
  | .str s => PerfLevel.from_string s

/-! ### QuotaProbe (`tikv_util::sys`)

`f64` quota values are modelled as `ℚ`; the computation uses only `min`,
equality with zero, and the sign test, which are exact on the values
involved.  The environment variable read plus `parse().ok()` are modelled
by an `Option ℚ` input (`none` when the variable is absent or does not
parse). -/

/-- `limit_cpu_cores_quota_by_env_var`.  Note the match guard in the source
tests `quota.is_sign_positive()` — the sign of the *computed* quota — not
the sign of the parsed environment value (`0 ≤ quota` models
`is_sign_positive` on the non-NaN, non-negative-zero values reaching it). -/
def limit_cpu_cores_quota_by_env_var (quota : ℚ) (envVarQuota : Option ℚ) : ℚ :=
  match envVarQuota with
  | some envQuota => if 0 ≤ quota then min quota envQuota else quota
  | none => quota

/-- `SysQuota::cpu_cores_quota` (Linux): start from the host logical core
count, tighten by the cgroup cpuset core count when nonzero, then by the
cgroup CPU quota when nonzero (`cpu_quota().unwrap_or(0.)`), and finally
apply the environment-variable clamp. -/
def cpu_cores_quota_linux (numCpus : ℕ) (cpusetCores : ℕ) (cpuQuota : Option ℚ)
    (envVarQuota : Option ℚ) : ℚ :=
  let cpuNum : ℚ := numCpus
  let quota : ℚ := cpuQuota.getD 0
  let cpuNum := if (cpusetCores : ℚ) ≠ 0 then min cpuNum (cpusetCores : ℚ) else cpuNum
  let cpuNum := if quota ≠ 0 then min cpuNum quota else cpuNum
  limit_cpu_cores_quota_by_env_var cpuNum envVarQuota

/-- `SysQuota::cpu_cores_quota` (non-Linux): host core count clamped by the
environment variable only. -/
def cpu_cores_quota_fallback (numCpus : ℕ) (envVarQuota : Option ℚ) : ℚ :=
  limit_cpu_cores_quota_by_env_var (numCpus : ℚ) envVarQuota

/-- `SysQuota::memory_limit_in_bytes` (Linux): host total memory, combined
with the cgroup memory limit (an `i64`) by `min` only when that limit is
positive. -/
def memory_limit_in_bytes (totalMem : ℕ) (cgroupMemoryLimit : ℤ) : ℕ :=
  if cgroupMemoryLimit ≤ 0 then totalMem else min totalMem cgroupMemoryLimit.toNat

/-- `SysQuota::memory_limit_in_bytes` (non-Linux): host total memory alone. -/
def memory_limit_in_bytes_fallback (totalMem : ℕ) : ℕ :=
  totalMem

/-! ### MemoryPressureMonitor (`tikv_util::sys`)

The two process-wide atomics are modelled as a record threaded through the
operations.  `fail_point!` is a no-op in production builds and is dropped. -/

def U64_MAX : ℕ := 2 ^ 64 - 1

/-- The process-wide atomic state: `GLOBAL_MEMORY_USAGE` (zero-initialized)
and `MEMORY_USAGE_HIGH_WATER` (initialized to `u64::MAX`). -/
structure MemState where
  globalMemoryUsage : ℕ
  memoryUsageHighWater : ℕ
  deriving DecidableEq

/-- The state at process start. -/
def initMemState : MemState :=
  { globalMemoryUsage := 0, memoryUsageHighWater := U64_MAX }

/-- `get_global_memory_usage`: atomic load. -/
def get_global_memory_usage (st : MemState) : ℕ :=
  st.globalMemoryUsage

/-- `register_memory_usage_high_water`: atomic store of the mark. -/
def register_memory_usage_high_water (st : MemState) (mark : ℕ) : MemState :=
  { st with memoryUsageHighWater := mark }

/-- Outcome of a monitor operation: the updated state, or a Rust process
abort (a reached `unwrap` on an error). -/
inductive ProcOutcome (α : Type) where
  | ok (a : α)
  | aborted (msg : String)
  deriving DecidableEq

def ProcOutcome.isAborted : ProcOutcome α → Bool
  | .aborted _ => true
  | _ => false

/-- `record_global_memory_usage` (Linux): `statm_self().unwrap()` — the
resident page count is an `Except` input standing for the result of reading
`/proc/self/statm`; on a read error the `unwrap` aborts the process.  On
success the store is `resident * page_size` cast to `u64`. -/
def record_global_memory_usage_linux (st : MemState)
    (statmResident : Except String ℕ) (pageSize : ℕ) : ProcOutcome MemState :=
  match statmResident with
  | .ok resident =>
    .ok { st with globalMemoryUsage := resident * pageSize % 2 ^ 64 }
  | .error e => .aborted ("called unwrap on an Err value: " ++ e)

/-- `record_global_memory_usage` (non-Linux): store zero. -/
def record_global_memory_usage_fallback (st : MemState) : MemState :=
  { st with globalMemoryUsage := 0 }

/-- `memory_usage_reaches_high_water`: load the usage into the output
parameter and return whether it is at or above the registered mark.  The
pair is (value written to the out-parameter, returned boolean). -/
def memory_usage_reaches_high_water (st : MemState) : ℕ × Bool :=
  (get_global_memory_usage st,
    decide (st.memoryUsageHighWater ≤ get_global_memory_usage st))

/-- `s` is `n` decorated with arbitrary leading/trailing Rust whitespace and
arbitrary per-character case variation: `s.data` splits as whitespace, a
core that lowercases character-by-character to `n.data`, and whitespace. -/
def wsCaseVariant (s n : String) : Prop :=
  ∃ ws1 core ws2,
    s.data = ws1 ++ core ++ ws2 ∧
    (∀ c ∈ ws1, rustIsWhitespace c = true) ∧
    (∀ c ∈ ws2, rustIsWhitespace c = true) ∧
    List.Forall₂ (fun c d => Char.toLower c = d) core n.data

/-! ## Claim theorems -/

/-- C2: `cpu_cores_quota` evaluated at the failing input.  With 4 host
cores, no cgroup constraints, and `TIKV_CPU_CORES_QUOTA=-5`, the function
returns `-5`, below the claimed lower bound of 0: the env-var clamp guards
on the sign of the computed quota (always positive) instead of the sign of
the parsed override, so a negative override is applied via `min`. -/
theorem c2_quota_lower_bound_fails :
    cpu_cores_quota_linux 4 0 none (some (-5)) = -5 ∧
    cpu_cores_quota_linux 4 0 none (some (-5)) < 0 := by
  constructor <;>
    norm_num [cpu_cores_quota_linux, limit_cpu_cores_quota_by_env_var]

/-- C3: `limit_cpu_cores_quota_by_env_var` evaluated at the failing input.
An override of `-5` is not positive, yet the function applies it
(`min 4 (-5) = -5`) instead of returning the computed quota `4` unchanged,
because the match guard tests `quota.is_sign_positive()` on the computed
quota rather than on the parsed override. -/
theorem c3_nonpositive_override_applied :
    limit_cpu_cores_quota_by_env_var 4 (some (-5)) = -5 ∧
    limit_cpu_cores_quota_by_env_var 4 (some (-5)) ≠ 4 := by
  constructor <;> norm_num [limit_cpu_cores_quota_by_env_var]

/-- C4: round-trip law.  Every compression variant decodes back from its
canonical textual name, every blob-run-mode variant from its kebab-case
name, and every numeric-first enumeration variant (compaction priority,
rate-limiter mode, compaction style, recovery mode, perf level) decodes
back from its encoded integer ordinal; the encoders are total functions. -/
theorem c4_roundtrip :
    (∀ t : DBCompressionType,
        compression_type_deserialize (compression_type_serialize t) = .ok t) ∧
    (∀ m : BlobRunMode, blobRunModeDeserialize (blobRunModeSerdeName m) = .ok m) ∧
    (∀ m : CompactionPriority,
        compaction_pri_deserialize (.signed (compaction_pri_serialize m)) = .ok m) ∧
    (∀ m : DBRateLimiterMode,
        rate_limiter_mode_deserialize (.signed (rate_limiter_mode_serialize m)) = .ok m) ∧
    (∀ m : DBCompactionStyle,
        compaction_style_deserialize (.signed (compaction_style_serialize m)) = .ok m) ∧
    (∀ m : DBRecoveryMode,
        recovery_mode_deserialize (.signed (recovery_mode_serialize m)) = .ok m) ∧
    (∀ m : PerfLevel,
        perf_level_deserialize (.signed (perf_level_serialize m)) = .ok m) :=
  ⟨fun t => by cases t <;> rfl,
   fun m => by cases m <;> rfl,
   fun m => by cases m <;> rfl,
   fun m => by cases m <;> rfl,
   fun m => by cases m <;> rfl,
   fun m => by cases m <;> rfl,
   fun m => by cases m <;> rfl⟩

/-- C6: `memory_limit_in_bytes` returns the host total when the cgroup
limit is absent-or-nonpositive, and `min(host_total, limit)` when the limit
is positive; the non-Linux variant returns the host total alone. -/
theorem c6_memory_limit (totalMem : ℕ) (cgroupMemoryLimit : ℤ) :
    (cgroupMemoryLimit ≤ 0 →
      memory_limit_in_bytes totalMem cgroupMemoryLimit = totalMem) ∧
    (0 < cgroupMemoryLimit →
      memory_limit_in_bytes totalMem cgroupMemoryLimit =
        min totalMem cgroupMemoryLimit.toNat) ∧
    memory_limit_in_bytes_fallback totalMem = totalMem := by
  refine ⟨fun h => ?_, fun h => ?_, rfl⟩
  · simp [memory_limit_in_bytes, h]
  · simp [memory_limit_in_bytes, not_le.mpr h]

/-- C6 witness: host total 100 with cgroup limit `-1` (treated as absent)
gives 100; with positive cgroup limit 60 gives `min 100 60 = 60`. -/
theorem c6_memory_limit_witness :
    memory_limit_in_bytes 100 (-1) = 100 ∧ memory_limit_in_bytes 100 60 = 60 :=
  ⟨(c6_memory_limit 100 (-1)).1 (by decide),
   by rw [(c6_memory_limit 100 60).2.1 (by decide)]; decide⟩

/-- C7: `memory_usage_reaches_high_water` writes the current global usage
into its output slot and returns true exactly when that usage is at or
above the registered mark; after `register_memory_usage_high_water 100` a
recorded snapshot of 150 yields `(150, true)` and one of 50 yields
`(50, false)`. -/
theorem c7_high_water_check :
    (∀ st : MemState,
        (memory_usage_reaches_high_water st).1 = get_global_memory_usage st ∧
        ((memory_usage_reaches_high_water st).2 = true ↔
          st.memoryUsageHighWater ≤ get_global_memory_usage st)) ∧
    (∀ st : MemState,
        record_global_memory_usage_linux
            (register_memory_usage_high_water initMemState 100)
            (Except.ok 150) 1 = ProcOutcome.ok st →
        memory_usage_reaches_high_water st = (150, true)) ∧
    (∀ st : MemState,
        record_global_memory_usage_linux
            (register_memory_usage_high_water initMemState 100)
            (Except.ok 50) 1 = ProcOutcome.ok st →
        memory_usage_reaches_high_water st = (50, false)) := by
  refine ⟨fun st => ⟨rfl, by simp [memory_usage_reaches_high_water]⟩,
    fun st h => ?_, fun st h => ?_⟩
  · injection h with h
    subst h
    decide
  · injection h with h
    subst h
    decide

/-- C7 witness: the scenario of the claim run at the concrete states. -/
theorem c7_high_water_check_witness :
    memory_usage_reaches_high_water
        { globalMemoryUsage := 150, memoryUsageHighWater := 100 } = (150, true) ∧
    memory_usage_reaches_high_water
        { globalMemoryUsage := 50, memoryUsageHighWater := 100 } = (50, false) :=
  ⟨c7_high_water_check.2.1
      { globalMemoryUsage := 150, memoryUsageHighWater := 100 } (by decide),
   c7_high_water_check.2.2
      { globalMemoryUsage := 50, memoryUsageHighWater := 100 } (by decide)⟩

/-- C8 counterexample: on Linux a failed `/proc/self/statm` read makes
`record_global_memory_usage` abort (the `unwrap` panics) instead of
degrading, so the function does not complete for every environment
state. -/
theorem c8_counterexample :
    (record_global_memory_usage_linux initMemState
        (Except.error "statm read failed") 4096).isAborted = true := by
  decide

/-- C8 (amended): the non-Linux variant always completes and stores zero,
and the Linux variant completes (never aborts) whenever the statm sample
read succeeds, storing `resident * page_size` as `u64`; only a failed
sample read aborts. -/
theorem c8_record_usage_amended (st : MemState) (resident pageSize : ℕ) :
    record_global_memory_usage_fallback st = { st with globalMemoryUsage := 0 } ∧
    (record_global_memory_usage_linux st (Except.ok resident) pageSize).isAborted
      = false ∧
    record_global_memory_usage_linux st (Except.ok resident) pageSize =
      ProcOutcome.ok { st with globalMemoryUsage := resident * pageSize % 2 ^ 64 } :=
  ⟨rfl, rfl, rfl⟩

/-- C1 counterexample: decoding a string outside the canonical alphabet
does not always return a recoverable error — for the perf-level codec the
string input `"zstd"` reaches the `FromString` panic (every string does),
and for the compaction-priority codec the kebab-case spelling
`"by-compensated-size"` panics as well. -/
theorem c1_counterexample :
    (perf_level_deserialize (SerdeInput.str "zstd")).isAborted = true ∧
    (perf_level_deserialize (SerdeInput.str "zstd")).isRecoverableErr = false ∧
    (compaction_pri_deserialize
        (SerdeInput.str "by-compensated-size")).isAborted = true := by
  decide

/-- C1 (amended): the compression-type and blob-run-mode codecs return a
recoverable decode error on every string outside their canonical alphabet,
and every numeric-first codec returns a recoverable invalid-value error on
every out-of-range integer ordinal; but a string input outside a
numeric-first codec's accepted variant-name set (any string at all, for the
perf-level codec) panics in `FromString::from_string` instead of returning
a recoverable error. -/
theorem c1_decode_errors_amended :
    (∀ s : String, compressionTypeOfName (normalizeConfigStr s) = none →
        (compression_type_deserialize s).isRecoverableErr = true) ∧
    (∀ s : String, s ∉ ["normal", "read-only", "fallback"] →
        (blobRunModeDeserialize s).isRecoverableErr = true) ∧
    (∀ v : Int, v < 0 ∨ 3 < v →
        (compaction_pri_deserialize (.signed v)).isRecoverableErr = true) ∧
    (∀ v : Int, v < 1 ∨ 3 < v →
        (rate_limiter_mode_deserialize (.signed v)).isRecoverableErr = true) ∧
    (∀ v : Int, v < 0 ∨ 1 < v →
        (compaction_style_deserialize (.signed v)).isRecoverableErr = true) ∧
    (∀ v : Int, v < 0 ∨ 3 < v →
        (recovery_mode_deserialize (.signed v)).isRecoverableErr = true) ∧
    (∀ v : Int, v < 0 ∨ 6 < v →
        (perf_level_deserialize (.signed v)).isRecoverableErr = true) ∧
    (∀ s : String,
        s ∉ ["ByCompensatedSize", "OldestLargestSeqFirst",
          "OldestSmallestSeqFirst", "MinOverlappingRatio"] →
        (compaction_pri_deserialize (.str s)).isAborted = true) ∧
    (∀ s : String, s ∉ ["ReadOnly", "WriteOnly", "AllIo"] →
        (rate_limiter_mode_deserialize (.str s)).isAborted = true) ∧
    (∀ s : String, s ∉ ["level", "universal"] →
        (compaction_style_deserialize (.str s)).isAborted = true) ∧
    (∀ s : String,
        s ∉ ["TolerateCorruptedTailRecords", "AbsoluteConsistency",
          "PointInTime", "SkipAnyCorruptedRecords"] →
        (recovery_mode_deserialize (.str s)).isAborted = true) ∧
    (∀ s : String, (perf_level_deserialize (.str s)).isAborted = true) := by
  refine ⟨fun s h => ?_, fun s h => ?_, fun v h => ?_, fun v h => ?_,
    fun v h => ?_, fun v h => ?_, fun v h => ?_, fun s h => ?_, fun s h => ?_,
    fun s h => ?_, fun s h => ?_, fun s => rfl⟩
  · simp [compression_type_deserialize, h, DecodeResult.isRecoverableErr]
  · simp only [List.mem_cons, List.not_mem_nil, or_false, not_or] at h
    obtain ⟨h1, h2, h3⟩ := h
    simp [blobRunModeDeserialize, h1, h2, h3, DecodeResult.isRecoverableErr]
  · have h0 : v ≠ 0 := by omega
    have h1 : v ≠ 1 := by omega
    have h2 : v ≠ 2 := by omega
    have h3 : v ≠ 3 := by omega
    simp [compaction_pri_deserialize, h0, h1, h2, h3,
      DecodeResult.isRecoverableErr]
  · have h1 : v ≠ 1 := by omega
    have h2 : v ≠ 2 := by omega
    have h3 : v ≠ 3 := by omega
    simp [rate_limiter_mode_deserialize, h1, h2, h3,
      DecodeResult.isRecoverableErr]
  · have h0 : v ≠ 0 := by omega
    have h1 : v ≠ 1 := by omega
    simp [compaction_style_deserialize, h0, h1, DecodeResult.isRecoverableErr]
  · have h0 : v ≠ 0 := by omega
    have h1 : v ≠ 1 := by omega
    have h2 : v ≠ 2 := by omega
    have h3 : v ≠ 3 := by omega
    simp [recovery_mode_deserialize, h0, h1, h2, h3,
      DecodeResult.isRecoverableErr]
  · have h0 : v ≠ 0 := by omega
    have h1 : v ≠ 1 := by omega
    have h2 : v ≠ 2 := by omega
    have h3 : v ≠ 3 := by omega
    have h4 : v ≠ 4 := by omega
    have h5 : v ≠ 5 := by omega
    have h6 : v ≠ 6 := by omega
    simp [perf_level_deserialize, h0, h1, h2, h3, h4, h5, h6,
      DecodeResult.isRecoverableErr]
  · simp only [List.mem_cons, List.not_mem_nil, or_false, not_or] at h
    obtain ⟨h1, h2, h3, h4⟩ := h
    simp [compaction_pri_deserialize, CompactionPriority.from_string,
      h1, h2, h3, h4, DecodeResult.isAborted]
  · simp only [List.mem_cons, List.not_mem_nil, or_false, not_or] at h
    obtain ⟨h1, h2, h3⟩ := h
    simp [rate_limiter_mode_deserialize, DBRateLimiterMode.from_string,
      h1, h2, h3, DecodeResult.isAborted]
  · simp only [List.mem_cons, List.not_mem_nil, or_false, not_or] at h
    obtain ⟨h1, h2⟩ := h
    simp [compaction_style_deserialize, DBCompactionStyle.from_string,
      h1, h2, DecodeResult.isAborted]
  · simp only [List.mem_cons, List.not_mem_nil, or_false, not_or] at h
    obtain ⟨h1, h2, h3, h4⟩ := h
    simp [recovery_mode_deserialize, DBRecoveryMode.from_string,
      h1, h2, h3, h4, DecodeResult.isAborted]

/-- C1 witness: the amended statement instantiated at concrete invalid
inputs for every codec. -/
theorem c1_decode_errors_witness :
    (compression_type_deserialize "yes").isRecoverableErr = true ∧
    (blobRunModeDeserialize "sometimes").isRecoverableErr = true ∧
    (compaction_pri_deserialize (.signed 4)).isRecoverableErr = true ∧
    (rate_limiter_mode_deserialize (.signed 0)).isRecoverableErr = true ∧
    (compaction_style_deserialize (.signed 2)).isRecoverableErr = true ∧
    (recovery_mode_deserialize (.signed (-1))).isRecoverableErr = true ∧
    (perf_level_deserialize (.signed 7)).isRecoverableErr = true ∧
    (compaction_pri_deserialize (.str "bogus")).isAborted = true ∧
    (rate_limiter_mode_deserialize (.str "bogus")).isAborted = true ∧
    (compaction_style_deserialize (.str "bogus")).isAborted = true ∧
    (recovery_mode_deserialize (.str "bogus")).isAborted = true ∧
    (perf_level_deserialize (.str "bogus")).isAborted = true :=
  ⟨c1_decode_errors_amended.1 "yes" (by decide),
   c1_decode_errors_amended.2.1 "sometimes" (by decide),
   c1_decode_errors_amended.2.2.1 4 (by decide),
   c1_decode_errors_amended.2.2.2.1 0 (by decide),
   c1_decode_errors_amended.2.2.2.2.1 2 (by decide),
   c1_decode_errors_amended.2.2.2.2.2.1 (-1) (by decide),
   c1_decode_errors_amended.2.2.2.2.2.2.1 7 (by decide),
   c1_decode_errors_amended.2.2.2.2.2.2.2.1 "bogus" (by decide),
   c1_decode_errors_amended.2.2.2.2.2.2.2.2.1 "bogus" (by decide),
   c1_decode_errors_amended.2.2.2.2.2.2.2.2.2.1 "bogus" (by decide),
   c1_decode_errors_amended.2.2.2.2.2.2.2.2.2.2.1 "bogus" (by decide),
   c1_decode_errors_amended.2.2.2.2.2.2.2.2.2.2.2 "bogus"⟩

/-- C10: converting any `BlobRunMode` variant into the `ConfigValue`
container representation and back yields the same variant, and on this path
neither panic branch of the backward conversion is reached. -/
theorem c10_blob_run_mode_config_roundtrip (m : BlobRunMode) :
    blobRunModeOfConfigValue (configValueOfBlobRunMode m) = DecodeResult.ok m := by
  cases m <;> rfl

/-! ## Lemmas on the ladder loop -/

/-- If every remaining element decodes (witnessed elementwise by `ts`) and
exactly fills the 7 slots, the loop succeeds with the accumulator followed
by the decoded elements. -/
theorem ladderVisitSeq_ok (xs : List String) (ts : List DBCompressionType)
    (i : ℕ) (acc : List DBCompressionType)
    (h : List.Forall₂
      (fun x t => compressionTypeOfName (normalizeConfigStr x) = some t) xs ts)
    (hlen : i + xs.length = 7) :
    ladderVisitSeq xs i acc = .ok (acc.reverse ++ ts) := by
  induction h generalizing i acc with
  | nil =>
    simp only [List.length_nil, Nat.add_zero] at hlen
    subst hlen
    simp [ladderVisitSeq]
  | cons hxt htail ih =>
    have hi : i ≠ 7 := by
      simp only [List.length_cons] at hlen
      omega
    rw [ladderVisitSeq, if_neg hi, hxt]
    show ladderVisitSeq _ (i + 1) (_ :: acc) = _
    rw [ih (i + 1) _ (by simp only [List.length_cons] at hlen ⊢; omega)]
    simp

/-- If every element decodes but the input runs out before filling 7
slots, the loop fails with the `invalid_length` error. -/
theorem ladderVisitSeq_short (xs : List String) (i : ℕ)
    (acc : List DBCompressionType)
    (hall : ∀ x ∈ xs, (compressionTypeOfName (normalizeConfigStr x)).isSome = true)
    (hlen : i + xs.length < 7) :
    (ladderVisitSeq xs i acc).isLengthErr = true := by
  induction xs generalizing i acc with
  | nil =>
    simp only [List.length_nil, Nat.add_zero] at hlen
    simp [ladderVisitSeq, hlen, DecodeResult.isLengthErr]
  | cons x xs ih =>
    have hi : i ≠ 7 := by
      simp only [List.length_cons] at hlen
      omega
    obtain ⟨t, ht⟩ := Option.isSome_iff_exists.mp (hall x (List.mem_cons_self x xs))
    rw [ladderVisitSeq, if_neg hi, ht]
    exact ih (i + 1) (t :: acc)
      (fun y hy => hall y (List.mem_cons_of_mem x hy))
      (by simp only [List.length_cons] at hlen ⊢; omega)

/-- An input longer than 7 elements always fails, and with an
`invalid_value` error (the only-7 rejection or an earlier bad name), never
with a length error. -/
theorem ladderVisitSeq_long (xs : List String) (i : ℕ)
    (acc : List DBCompressionType)
    (hlen : 7 < i + xs.length) (hi : i ≤ 7) :
    (ladderVisitSeq xs i acc).isInvalidValueErr = true := by
  induction xs generalizing i acc with
  | nil =>
    simp only [List.length_nil, Nat.add_zero] at hlen
    omega
  | cons x xs ih =>
    by_cases h7 : i = 7
    · subst h7
      simp [ladderVisitSeq, DecodeResult.isInvalidValueErr]
    · rw [ladderVisitSeq, if_neg h7]
      cases ht : compressionTypeOfName (normalizeConfigStr x) with
      | some t =>
        exact ih (i + 1) (t :: acc)
          (by simp only [List.length_cons] at hlen ⊢; omega) (by omega)
      | none => simp [DecodeResult.isInvalidValueErr]

/-- An unrecognized name among at most the first 7 elements makes the loop
fail with an `invalid_value` error. -/
theorem ladderVisitSeq_badname (xs : List String) (i : ℕ)
    (acc : List DBCompressionType)
    (hlen : i + xs.length ≤ 7)
    (hbad : ∃ x ∈ xs, compressionTypeOfName (normalizeConfigStr x) = none) :
    (ladderVisitSeq xs i acc).isInvalidValueErr = true := by
  induction xs generalizing i acc with
  | nil => simp at hbad
  | cons x xs ih =>
    have hi : i ≠ 7 := by
      simp only [List.length_cons] at hlen
      omega
    rw [ladderVisitSeq, if_neg hi]
    cases ht : compressionTypeOfName (normalizeConfigStr x) with
    | none => simp [DecodeResult.isInvalidValueErr]
    | some t =>
      obtain ⟨y, hy, hyn⟩ := hbad
      rcases List.mem_cons.mp hy with rfl | hy2
      · rw [ht] at hyn
        exact absurd hyn (by simp)
      · exact ih (i + 1) (t :: acc)
          (by simp only [List.length_cons] at hlen ⊢; omega) ⟨y, hy2, hyn⟩

/-- Every canonical compression name decodes (already normalized) to a
variant whose canonical name is itself. -/
theorem canonical_name_decode (x : String)
    (hx : x ∈ canonicalCompressionNames) :
    ∃ t, compressionTypeOfName (normalizeConfigStr x) = some t ∧
      compressionTypeName t = x ∧ normalizeConfigStr x = x := by
  fin_cases hx
  · exact ⟨.no, by decide, by decide, by decide⟩
  · exact ⟨.snappy, by decide, by decide, by decide⟩
  · exact ⟨.zlib, by decide, by decide, by decide⟩
  · exact ⟨.bz2, by decide, by decide, by decide⟩
  · exact ⟨.lz4, by decide, by decide, by decide⟩
  · exact ⟨.lz4hc, by decide, by decide, by decide⟩
  · exact ⟨.zstd, by decide, by decide, by decide⟩
  · exact ⟨.zstdNotFinal, by decide, by decide, by decide⟩
  · exact ⟨.disable, by decide, by decide, by decide⟩

/-- A list of canonical names decodes elementwise to a variant list that
re-encodes to the same names. -/
theorem canonical_list_decode (xs : List String)
    (h : ∀ x ∈ xs, x ∈ canonicalCompressionNames) :
    ∃ ts, List.Forall₂
        (fun x t => compressionTypeOfName (normalizeConfigStr x) = some t) xs ts ∧
      List.map compressionTypeName ts = xs := by
  induction xs with
  | nil => exact ⟨[], List.Forall₂.nil, rfl⟩
  | cons x xs ih =>
    obtain ⟨t, ht, hn, _⟩ := canonical_name_decode x (h x (List.mem_cons_self x xs))
    obtain ⟨ts, hf, hm⟩ := ih (fun y hy => h y (List.mem_cons_of_mem x hy))
    exact ⟨t :: ts, List.Forall₂.cons ht hf, by simp [hn, hm]⟩

/-- C5 counterexample: decoding an 8-element sequence of recognized names
fails, but with an `invalid_value` error (`"only 7 compression types"`),
not with the length error the claim requires for every wrong-length
input. -/
theorem c5_counterexample :
    (compression_type_level_deserialize (List.replicate 8 "no")).isLengthErr
        = false ∧
    (compression_type_level_deserialize (List.replicate 8 "no")).isOk = false ∧
    (compression_type_level_deserialize
        (List.replicate 8 "no")).isInvalidValueErr = true := by
  decide

/-- C5 (amended): a 7-element sequence of canonical names decodes and
re-encodes to the same 7 names; a shorter sequence whose elements are all
recognized fails with a length error; a sequence longer than 7 fails with
an invalid-value error (not a length error); a sequence of at most 7
elements containing an unrecognized name fails with an invalid-value
error; and encoding a 7-element variant array produces exactly 7 names. -/
theorem c5_ladder_amended :
    (∀ xs : List String, xs.length = 7 →
        (∀ x ∈ xs, x ∈ canonicalCompressionNames) →
        ∃ ts, compression_type_level_deserialize xs = .ok ts ∧
          compression_type_level_serialize ts = xs ∧ ts.length = 7) ∧
    (∀ xs : List String, xs.length < 7 →
        (∀ x ∈ xs,
          (compressionTypeOfName (normalizeConfigStr x)).isSome = true) →
        (compression_type_level_deserialize xs).isLengthErr = true) ∧
    (∀ xs : List String, 7 < xs.length →
        (compression_type_level_deserialize xs).isInvalidValueErr = true) ∧
    (∀ xs : List String, xs.length ≤ 7 →
        (∃ x ∈ xs, compressionTypeOfName (normalizeConfigStr x) = none) →
        (compression_type_level_deserialize xs).isInvalidValueErr = true) ∧
    (∀ ts : List DBCompressionType, ts.length = 7 →
        (compression_type_level_serialize ts).length = 7) := by
  refine ⟨fun xs h7 hcanon => ?_, fun xs hlt hall => ?_, fun xs hgt => ?_,
    fun xs hle hbad => ?_, fun ts h7 => ?_⟩
  · obtain ⟨ts, hf, hm⟩ := canonical_list_decode xs hcanon
    refine ⟨ts, ?_, hm, ?_⟩
    · have := ladderVisitSeq_ok xs ts 0 [] hf (by omega)
      simpa [compression_type_level_deserialize] using this
    · rw [← hf.length_eq]
      exact h7
  · exact ladderVisitSeq_short xs 0 [] hall (by omega)
  · exact ladderVisitSeq_long xs 0 [] (by omega) (by omega)
  · exact ladderVisitSeq_badname xs 0 [] (by omega) hbad
  · simp [compression_type_level_serialize, h7]

/-- C5 witness: the amended statement at the concrete sequences of the
claim — a valid 7-element ladder, lengths 1 and 6, length 8, and a
7-element ladder containing the unrecognized name `"yes"`. -/
theorem c5_ladder_witness :
    (compression_type_level_deserialize
        ["no", "snappy", "zlib", "bzip2", "lz4", "lz4hc", "zstd"]).isOk = true ∧
    (compression_type_level_deserialize ["no"]).isLengthErr = true ∧
    (compression_type_level_deserialize (List.replicate 6 "no")).isLengthErr
        = true ∧
    (compression_type_level_deserialize
        (List.replicate 8 "no")).isInvalidValueErr = true ∧
    (compression_type_level_deserialize
        ["no", "no", "no", "no", "no", "no", "yes"]).isInvalidValueErr = true ∧
    compression_type_level_serialize
        [.no, .snappy, .zlib, .bz2, .lz4, .lz4hc, .zstd]
      = ["no", "snappy", "zlib", "bzip2", "lz4", "lz4hc", "zstd"] := by
  refine ⟨?_, ?_, ?_, ?_, ?_, ?_⟩
  · obtain ⟨ts, hdec, _, _⟩ := c5_ladder_amended.1
      ["no", "snappy", "zlib", "bzip2", "lz4", "lz4hc", "zstd"]
      (by decide) (by decide)
    rw [hdec]
    rfl
  · exact c5_ladder_amended.2.1 ["no"] (by decide) (by decide)
  · exact c5_ladder_amended.2.1 (List.replicate 6 "no") (by decide) (by decide)
  · exact c5_ladder_amended.2.2.1 (List.replicate 8 "no") (by decide)
  · exact c5_ladder_amended.2.2.2.1 ["no", "no", "no", "no", "no", "no", "yes"]
      (by decide) ⟨"yes", by decide, by decide⟩
  · decide

/-! ## Lemmas on `trim` / `to_lowercase` normalization -/

/-- ASCII lowercasing fixes every whitespace character (the uppercase-latin
range contains no whitespace). -/
theorem toLower_of_whitespace (c : Char) (h : rustIsWhitespace c = true) :
    Char.toLower c = c := by
  have hn : ¬(65 ≤ c.toNat ∧ c.toNat ≤ 90) := by
    simp only [rustIsWhitespace, Bool.or_eq_true, Bool.and_eq_true,
      decide_eq_true_eq, beq_iff_eq] at h
    omega
  simp [Char.toLower, ge_iff_le, hn]

/-- A character whose lowercasing is a non-whitespace character is itself
non-whitespace. -/
theorem not_whitespace_of_toLower (c d : Char) (hcd : Char.toLower c = d)
    (hd : rustIsWhitespace d = false) : rustIsWhitespace c = false := by
  cases hws : rustIsWhitespace c with
  | false => rfl
  | true =>
    rw [toLower_of_whitespace c hws] at hcd
    subst hcd
    rw [hws] at hd
    cases hd

theorem dropWhile_append_all (p : Char → Bool) (l1 l2 : List Char)
    (h : ∀ x ∈ l1, p x = true) :
    List.dropWhile p (l1 ++ l2) = List.dropWhile p l2 := by
  induction l1 with
  | nil => rfl
  | cons a l ih =>
    rw [List.cons_append,
      List.dropWhile_cons_of_pos (h a (List.mem_cons_self a l))]
    exact ih (fun x hx => h x (List.mem_cons_of_mem a hx))

theorem dropWhile_all_neg (p : Char → Bool) (l : List Char)
    (h : ∀ x ∈ l, p x = false) : List.dropWhile p l = l := by
  cases l with
  | nil => rfl
  | cons a l =>
    exact List.dropWhile_cons_of_neg (by simp [h a (List.mem_cons_self a l)])

/-- Rust `trim` strips exactly the whitespace padding around a nonempty
whitespace-free core. -/
theorem rustTrim_padding (ws1 core ws2 : List Char)
    (h1 : ∀ c ∈ ws1, rustIsWhitespace c = true)
    (h2 : ∀ c ∈ ws2, rustIsWhitespace c = true)
    (hne : core ≠ [])
    (hcore : ∀ c ∈ core, rustIsWhitespace c = false) :
    rustTrim (ws1 ++ core ++ ws2) = core := by
  have e1 : List.dropWhile rustIsWhitespace (ws1 ++ core ++ ws2) = core ++ ws2 := by
    rw [List.append_assoc, dropWhile_append_all _ ws1 _ h1]
    cases core with
    | nil => exact absurd rfl hne
    | cons a l =>
      rw [List.cons_append,
        List.dropWhile_cons_of_neg (by simp [hcore a (List.mem_cons_self a l)])]
  unfold rustTrim
  rw [e1, List.reverse_append,
    dropWhile_append_all _ _ _ (fun c hc => h2 c (List.mem_reverse.mp hc)),
    dropWhile_all_neg _ _ (fun c hc => hcore c (List.mem_reverse.mp hc)),
    List.reverse_reverse]

theorem forall₂_toLower_map (l u : List Char)
    (h : List.Forall₂ (fun c d => Char.toLower c = d) l u) :
    l.map Char.toLower = u := by
  induction h with
  | nil => rfl
  | cons hcd htail ih => simp [ih, hcd]

theorem forall₂_toLower_of_map (l u : List Char)
    (h : l.map Char.toLower = u) :
    List.Forall₂ (fun c d => Char.toLower c = d) l u := by
  subst h
  induction l with
  | nil => exact List.Forall₂.nil
  | cons a l ih => exact List.Forall₂.cons rfl ih

theorem forall₂_mem_left (R : Char → Char → Prop) (l u : List Char)
    (h : List.Forall₂ R l u) (c : Char) (hc : c ∈ l) :
    ∃ d ∈ u, R c d := by
  induction h with
  | nil => simp at hc
  | cons hcd htail ih =>
    rcases List.mem_cons.mp hc with rfl | hc2
    · exact ⟨_, List.mem_cons_self _ _, hcd⟩
    · obtain ⟨d, hd, hr⟩ := ih hc2
      exact ⟨d, List.mem_cons_of_mem _ hd, hr⟩

/-- A case-variant with whitespace padding of a string with no core
restriction follows from a plain per-character lowercasing equation. -/
theorem wsCaseVariant_of_map (s n : String)
    (h : s.data.map Char.toLower = n.data) : wsCaseVariant s n :=
  ⟨[], s.data, [], by simp, by simp, by simp, forall₂_toLower_of_map _ _ h⟩

/-- Every canonical compression name is nonempty and whitespace-free. -/
theorem canonical_names_chars (n : String)
    (hn : n ∈ canonicalCompressionNames) :
    n.data ≠ [] ∧ ∀ c ∈ n.data, rustIsWhitespace c = false := by
  fin_cases hn <;> exact ⟨by decide, by decide⟩

/-- The `trim().to_lowercase()` normalization maps any whitespace-padded
case-variant of a canonical name to the name itself. -/
theorem normalize_of_wsCaseVariant (s n : String) (h : wsCaseVariant s n)
    (hn : n ∈ canonicalCompressionNames) :
    normalizeConfigStr s = n := by
  obtain ⟨ws1, core, ws2, hs, h1, h2, hf⟩ := h
  obtain ⟨hne, hchars⟩ := canonical_names_chars n hn
  have hcoreNe : core ≠ [] := by
    intro hc
    apply hne
    have hl := hf.length_eq
    rw [hc] at hl
    exact List.eq_nil_of_length_eq_zero hl.symm
  have hcore : ∀ c ∈ core, rustIsWhitespace c = false := by
    intro c hc
    obtain ⟨d, hd, hcd⟩ := forall₂_mem_left _ _ _ hf c hc
    exact not_whitespace_of_toLower c d hcd (hchars d hd)
  unfold normalizeConfigStr
  rw [hs, rustTrim_padding ws1 core ws2 h1 h2 hcoreNe hcore,
    forall₂_toLower_map core n.data hf]

/-- Pointwise case/whitespace variants of canonical names decode
elementwise to the same variants as the canonical names themselves. -/
theorem variant_forall₂_decode (xs ns : List String)
    (ts : List DBCompressionType)
    (h : List.Forall₂ wsCaseVariant xs ns)
    (hns : ∀ n ∈ ns, n ∈ canonicalCompressionNames)
    (h2 : List.Forall₂
      (fun n t => compressionTypeOfName (normalizeConfigStr n) = some t) ns ts) :
    List.Forall₂
      (fun x t => compressionTypeOfName (normalizeConfigStr x) = some t) xs ts := by
  induction h generalizing ts with
  | nil =>
    cases h2
    exact List.Forall₂.nil
  | cons hxn htail ih =>
    cases h2 with
    | cons hnt h2tail =>
      refine List.Forall₂.cons ?_
        (ih _ (fun m hm => hns m (List.mem_cons_of_mem _ hm)) h2tail)
      have hn := hns _ (List.mem_cons_self _ _)
      have hnorm := normalize_of_wsCaseVariant _ _ hxn hn
      obtain ⟨t0, _, _, hnn⟩ := canonical_name_decode _ hn
      rw [hnorm, ← hnn]
      exact hnt

/-- C9: both compression decoders are case-insensitive and ignore
surrounding whitespace — any whitespace-padded case-variant of a canonical
name decodes, in the scalar codec and elementwise in the 7-element ladder
codec, to the same variant as the canonical lowercase name. -/
theorem c9_case_and_whitespace_insensitive :
    (∀ s n : String, ∀ v : DBCompressionType, wsCaseVariant s n →
        n ∈ canonicalCompressionNames → compressionTypeOfName n = some v →
        compression_type_deserialize s = DecodeResult.ok v ∧
        compression_type_deserialize n = DecodeResult.ok v) ∧
    (∀ xs ns : List String, List.Forall₂ wsCaseVariant xs ns →
        (∀ n ∈ ns, n ∈ canonicalCompressionNames) → ns.length = 7 →
        ∃ ts, compression_type_level_deserialize xs = DecodeResult.ok ts ∧
          compression_type_level_deserialize ns = DecodeResult.ok ts) := by
  refine ⟨fun s n v hvar hn hv => ?_, fun xs ns hf hns hlen => ?_⟩
  · have hnorm := normalize_of_wsCaseVariant s n hvar hn
    obtain ⟨t0, _, _, hnn⟩ := canonical_name_decode n hn
    constructor
    · unfold compression_type_deserialize
      rw [hnorm, hv]
    · unfold compression_type_deserialize
      rw [hnn, hv]
  · obtain ⟨ts, hf2, _⟩ := canonical_list_decode ns hns
    have hf1 := variant_forall₂_decode xs ns ts hf hns hf2
    have hxslen : xs.length = 7 := by
      rw [hf.length_eq]
      exact hlen
    refine ⟨ts, ?_, ?_⟩
    · have := ladderVisitSeq_ok xs ts 0 [] hf1 (by rw [hxslen])
      simpa [compression_type_level_deserialize] using this
    · have := ladderVisitSeq_ok ns ts 0 [] hf2 (by rw [hlen])
      simpa [compression_type_level_deserialize] using this

/-- C9 witness: `"  SNAPPY "` decodes like `"snappy"` in the scalar codec,
and a 7-element ladder with mixed case and padding decodes successfully. -/
theorem c9_case_and_whitespace_witness :
    compression_type_deserialize "  SNAPPY " =
      DecodeResult.ok DBCompressionType.snappy ∧
    compression_type_deserialize "snappy" =
      DecodeResult.ok DBCompressionType.snappy ∧
    (compression_type_level_deserialize
        [" No", "SNAPPY", "zlib", "bzip2", "lz4", "LZ4HC", "zstd "]).isOk
      = true := by
  have hvar : wsCaseVariant "  SNAPPY " "snappy" :=
    ⟨[' ', ' '], ['S', 'N', 'A', 'P', 'P', 'Y'], [' '], by decide, by decide,
      by decide, forall₂_toLower_of_map _ _ (by decide)⟩
  obtain ⟨hd1, hd2⟩ := c9_case_and_whitespace_insensitive.1 "  SNAPPY " "snappy"
    DBCompressionType.snappy hvar (by decide) (by decide)
  refine ⟨hd1, hd2, ?_⟩
  have w1 : wsCaseVariant " No" "no" :=
    ⟨[' '], ['N', 'o'], [], by decide, by decide, by decide,
      forall₂_toLower_of_map _ _ (by decide)⟩
  have w2 : wsCaseVariant "SNAPPY" "snappy" :=
    wsCaseVariant_of_map _ _ (by decide)
  have w3 : wsCaseVariant "zlib" "zlib" := wsCaseVariant_of_map _ _ (by decide)
  have w4 : wsCaseVariant "bzip2" "bzip2" := wsCaseVariant_of_map _ _ (by decide)
  have w5 : wsCaseVariant "lz4" "lz4" := wsCaseVariant_of_map _ _ (by decide)
  have w6 : wsCaseVariant "LZ4HC" "lz4hc" := wsCaseVariant_of_map _ _ (by decide)
  have w7 : wsCaseVariant "zstd " "zstd" :=
    ⟨[], ['z', 's', 't', 'd'], [' '], by decide, by decide, by decide,
      forall₂_toLower_of_map _ _ (by decide)⟩
  obtain ⟨ts, hx, _⟩ := c9_case_and_whitespace_insensitive.2
    [" No", "SNAPPY", "zlib", "bzip2", "lz4", "LZ4HC", "zstd "]
    ["no", "snappy", "zlib", "bzip2", "lz4", "lz4hc", "zstd"]
    (List.Forall₂.cons w1 (List.Forall₂.cons w2 (List.Forall₂.cons w3
      (List.Forall₂.cons w4 (List.Forall₂.cons w5 (List.Forall₂.cons w6
        (List.Forall₂.cons w7 List.Forall₂.nil)))))))
    (by decide) (by decide)
  rw [hx]
  rfl

end Tikv
